import Mathlib

/-!
Shallow embedding of the core interference logic of `src/main.py` of the
Antibody repository (adaptive insertion of invisible Unicode characters),
together with proofs of the specification claims about it.

Texts are modelled as lists of Unicode code points (`List Char`).  The
process-wide random source is modelled by two explicit outcome streams:
`gate : Nat → ℚ` gives the successive values returned by `random.random()`
(each call consumes the next one, compared against the implantation
probability), and `pick : Nat → Nat` gives the successive choices made by
`random.choice` (the value is reduced modulo the length of the list being
chosen from, so every stream models a sequence of in-range uniform draws,
and every in-range draw sequence is modelled by some stream).
Probabilities are embedded as rationals.
-/

namespace Antibody

/-- The pool table `INVISIBLE_CHAR_POOLS` of `src/main.py` (lines 10-14):
three named pools of invisible characters. -/
def INVISIBLE_CHAR_POOLS : List (String × List Char) :=
  [("Basic Pool", [Char.ofNat 0x200B, Char.ofNat 0x200C, Char.ofNat 0x200D]),
   ("Expansion Pool", [Char.ofNat 0x00A0, Char.ofNat 0x0009, Char.ofNat 0x200E]),
   ("Spare Pool", [Char.ofNat 0x202F, Char.ofNat 0x2060, Char.ofNat 0xFEFF])]

/-- The union (in registration order) of all registered pools. -/
def registeredPoolChars : List Char :=
  (INVISIBLE_CHAR_POOLS.map Prod.snd).flatten

/-- An interference-level configuration record: the values stored in
`INTERFERENCE_LEVELS` of `src/main.py` under the keys `Interval`,
`Implantation Probability` and `Character Pool`. -/
structure InterferenceCfg where
  interval : Nat
  prob : ℚ
  pools : List String
deriving DecidableEq

/-- The `Mild Interference` configuration (line 18). -/
def mildCfg : InterferenceCfg :=
  ⟨5, 1/5, ["Basic Pool"]⟩

/-- The `Moderate Interference` configuration (line 19). -/
def moderateCfg : InterferenceCfg :=
  ⟨3, 1/2, ["Basic Pool", "Expansion Pool"]⟩

/-- The `Severe interference` configuration (line 20; note the lower-case
second word, exactly as in the source). -/
def severeCfg : InterferenceCfg :=
  ⟨2, 4/5, ["Basic Pool", "Expansion Pool", "Spare Pool"]⟩

/-- The level registry `INTERFERENCE_LEVELS` of `src/main.py` (lines 17-21). -/
def INTERFERENCE_LEVELS : List (String × InterferenceCfg) :=
  [("Mild Interference", mildCfg),
   ("Moderate Interference", moderateCfg),
   ("Severe interference", severeCfg)]

/-- The dictionary lookup `INTERFERENCE_LEVELS[selected_level]` performed by
`process_input` (line 185): `some cfg` models a successful lookup,
`none` models the `KeyError` raised for an unregistered name. -/
def level_lookup (level_name : String) : Option InterferenceCfg :=
  INTERFERENCE_LEVELS.lookup level_name

/-- The exact character content of `INVALID_POS_CHARS` (line 24 of
`src/main.py`).  The source defines it as a RAW (`r`-prefixed) triple-quoted
string, so the escape pairs written in it are NOT processed: the string
contains literal backslashes together with the LETTERS `t`, `n`, `r`
(code points 92,116,92,110,92,114 at the end below), and does NOT contain
the tab, newline or carriage-return characters.  Each number below is the
code point of one character of that string, in order. -/
def INVALID_POS_CHARS : List Char :=
  [33, 92, 34, 35, 36, 37, 38, 39, 40, 41, 42, 43, 44, 45, 46, 47,
   58, 59, 60, 61, 62, 63, 64, 91, 92, 93, 94, 95, 96, 123, 124, 125, 126,
   32, 0x3000, 92, 116, 92, 110, 92, 114].map Char.ofNat

/-- `is_valid_insert_pos` of `src/main.py` (lines 33-37): a boundary is
suitable for insertion unless either adjacent character occurs in
`INVALID_POS_CHARS`. -/
def is_valid_insert_pos (prev_char next_char : Char) : Bool :=
  !(INVALID_POS_CHARS.contains prev_char || INVALID_POS_CHARS.contains next_char)

/-- `INVISIBLE_CHAR_POOLS[pool_name]` (line 30).  All pool names used by the
registered levels exist in the table; for an absent name the Python code
would raise `KeyError`, modelled here by the default `[]` (no claim touches
that case). -/
def poolOf (pool_name : String) : List Char :=
  (INVISIBLE_CHAR_POOLS.lookup pool_name).getD []

/-- The flattened list `all_chars` built by `get_random_invisible_char`
(lines 28-30): the pools named in `used_pools`, concatenated in order. -/
def all_chars (used_pools : List String) : List Char :=
  used_pools.foldl (fun acc pool_name => acc ++ poolOf pool_name) []

/-- `get_random_invisible_char` (lines 26-31): one uniform `random.choice`
from the flattened pool list, modelled by an explicit choice value reduced
modulo the list length. -/
def get_random_invisible_char (used_pools : List String) (choiceVal : Nat) : Char :=
  (all_chars used_pools).getD (choiceVal % (all_chars used_pools).length) (Char.ofNat 0)

/-- Python `str.isspace` for a single character: the set of code points
stripped by `str.strip()` with no argument. -/
def pyIsSpace (c : Char) : Bool :=
  (9 ≤ c.toNat && c.toNat ≤ 13) || (28 ≤ c.toNat && c.toNat ≤ 31) ||
  c.toNat == 32 || c.toNat == 0x85 || c.toNat == 0xA0 || c.toNat == 0x1680 ||
  (0x2000 ≤ c.toNat && c.toNat ≤ 0x200A) ||
  c.toNat == 0x2028 || c.toNat == 0x2029 || c.toNat == 0x202F ||
  c.toNat == 0x205F || c.toNat == 0x3000

/-- Python `text.strip()`: remove leading and trailing whitespace. -/
def pyStrip (text : List Char) : List Char :=
  ((text.dropWhile pyIsSpace).reverse.dropWhile pyIsSpace).reverse

/-- The validity test performed at boundary `i` by lines 54-56 of
`src/main.py`: `is_valid_insert_pos(result[i-1], result[i])`, where `result`
still equals the input text during the scan. -/
def validBoundary (text : List Char) (i : Nat) : Bool :=
  is_valid_insert_pos (text.getD (i - 1) (Char.ofNat 0)) (text.getD i (Char.ofNat 0))

/-- The boundary indices scanned by the loop `for i in range(1, len(result))`
(line 53): `1, 2, ..., len - 1`. -/
def boundaries (text : List Char) : List Nat :=
  List.range' 1 (text.length - 1)

/-- The scanning loop of lines 53-59, transliterated with its two pieces of
threaded state (`char_count`, and the index `g` of the next `random.random()`
outcome).  It returns the pair of (1) `insert_positions` and (2) the list of
boundaries at which a `random.random()` draw was consumed: the Python `and`
short-circuits, so the draw happens exactly when the incremented
`char_count` is divisible by `interval`. -/
def scanLoop (text : List Char) (interval : Nat) (prob : ℚ) (gate : Nat → ℚ) :
    List Nat → Nat → Nat → List Nat × List Nat
  | [], _, _ => ([], [])
  | i :: rest, char_count, g =>
    if validBoundary text i then
      if (char_count + 1) % interval == 0 then
        let r := scanLoop text interval prob gate rest (char_count + 1) (g + 1)
        (if gate g < prob then i :: r.1 else r.1, i :: r.2)
      else
        scanLoop text interval prob gate rest (char_count + 1) g
    else
      scanLoop text interval prob gate rest char_count g

/-- The same loop with the random draws erased: the list of boundaries at
which a draw is consumed, computed from the text and the interval alone. -/
def drawLoop (text : List Char) (interval : Nat) : List Nat → Nat → List Nat
  | [], _ => []
  | i :: rest, char_count =>
    if validBoundary text i then
      if (char_count + 1) % interval == 0 then
        i :: drawLoop text interval rest (char_count + 1)
      else
        drawLoop text interval rest (char_count + 1)
    else
      drawLoop text interval rest char_count

/-- The boundaries of `text` at which the scan consumes a random draw. -/
def drawBoundaries (text : List Char) (interval : Nat) : List Nat :=
  drawLoop text interval (boundaries text) 0

/-- The reverse-order insertion loop of lines 62-63: each step inserts one
freshly chosen invisible character at the next position (list positions are
processed in the order given; the caller passes `insert_positions` already
reversed).  Returns the mutated list and the number of choice draws
consumed. -/
def insertLoop (used_pools : List String) (pick : Nat → Nat) :
    List Nat → Nat → List Char → List Char × Nat
  | [], k, result => (result, k)
  | pos :: rest, k, result =>
    insertLoop used_pools pick rest (k + 1)
      (result.insertIdx pos (get_random_invisible_char used_pools (pick k)))

/-- `insert_adaptive_invisible_traps` of `src/main.py` (lines 39-67), with
the random source made explicit: `gate` enumerates the `random.random()`
outcomes and `pick` the `random.choice` outcomes, each in order of
consumption.  `list.insert` and `List.insertIdx` agree on every position the
scan can produce (all are at most the current list length). -/
def insert_adaptive_invisible_traps (text : List Char) (cfg : InterferenceCfg)
    (gate : Nat → ℚ) (pick : Nat → Nat) : List Char :=
  if (pyStrip text).isEmpty then [] else
  let insert_positions := (scanLoop text cfg.interval cfg.prob gate (boundaries text) 0 0).1
  let after := insertLoop cfg.pools pick insert_positions.reverse 0 text
  after.1 ++ [Char.ofNat 32, get_random_invisible_char cfg.pools (pick after.2),
              get_random_invisible_char cfg.pools (pick (after.2 + 1))]

/-- The number of eligible (valid) boundaries of `text`: the final value of
`char_count` after the scan. -/
def eligibleCount (text : List Char) : Nat :=
  ((boundaries text).filter (fun i => validBoundary text i)).length

/-- Removing from a string every character that occurs in any registered
pool (the cleanup step of the content-preservation property). -/
def stripInvisible (s : List Char) : List Char :=
  s.filter (fun c => !(registeredPoolChars.contains c))

/-- Removing the trailing end-mark from an already `stripInvisible`-cleaned
output: the two invisible trailing characters are pool characters and are
already gone, so what remains of the `" " + end_mark` suffix is the single
space, removed here. -/
def removeEndMark (s : List Char) : List Char :=
  s.dropLast

/-- The expected number of in-body insertions for one run on `text` under
`cfg`, with the modelled draws: every boundary in
`drawBoundaries text cfg.interval` receives an insertion independently with
probability `cfg.prob`, so the expectation is their product. -/
def expectedInsertions (text : List Char) (cfg : InterferenceCfg) : ℚ :=
  ((drawBoundaries text cfg.interval).length : ℚ) * cfg.prob

/-- The number of valid boundaries among `1, ..., i` (the value of
`char_count` just after the scan has processed boundary `i`). -/
def eligUpto (text : List Char) (i : Nat) : Nat :=
  ((List.range' 1 i).filter (fun j => validBoundary text j)).length

/-! ### Helper lemmas -/

lemma sublist_insertIdx (a : Char) : ∀ (n : Nat) (l : List Char), l.Sublist (l.insertIdx n a)
  | 0, l => by simp [List.insertIdx_zero]
  | n + 1, [] => by simp [List.insertIdx_succ_nil]
  | n + 1, x :: xs => by
      rw [List.insertIdx_succ_cons]
      exact List.Sublist.cons₂ x (sublist_insertIdx a n xs)

lemma filter_insertIdx (p : Char → Bool) (a : Char) (hp : p a = false) :
    ∀ (n : Nat) (l : List Char), (l.insertIdx n a).filter p = l.filter p
  | 0, l => by simp [List.insertIdx_zero, List.filter_cons, hp]
  | n + 1, [] => by simp [List.insertIdx_succ_nil]
  | n + 1, x :: xs => by
      rw [List.insertIdx_succ_cons]
      simp only [List.filter_cons, filter_insertIdx p a hp n xs]

lemma head?_insertIdx (a : Char) (n : Nat) (l : List Char) (hn : 1 ≤ n) :
    (l.insertIdx n a).head? = l.head? := by
  cases n with
  | zero => omega
  | succ m =>
    cases l with
    | nil => simp [List.insertIdx_succ_nil]
    | cons x xs => rw [List.insertIdx_succ_cons]; rfl

lemma getD_mod_mem (l : List Char) (h : l ≠ []) (v : Nat) (d : Char) :
    l.getD (v % l.length) d ∈ l := by
  have hlen : 0 < l.length := List.length_pos.mpr h
  have hlt : v % l.length < l.length := Nat.mod_lt _ hlen
  rw [List.getD_eq_getElem l d hlt]
  exact List.getElem_mem hlt

lemma insertLoop_fst_length (used_pools : List String) (pick : Nat → Nat) :
    ∀ (ps : List Nat) (k : Nat) (res : List Char), (∀ p ∈ ps, p ≤ res.length) →
      (insertLoop used_pools pick ps k res).1.length = res.length + ps.length
  | [], k, res, _ => rfl
  | pos :: rest, k, res, h => by
      rw [insertLoop]
      have hpos : pos ≤ res.length := h pos (by simp)
      have hlen : (res.insertIdx pos (get_random_invisible_char used_pools (pick k))).length
          = res.length + 1 := List.length_insertIdx pos res hpos
      rw [insertLoop_fst_length used_pools pick rest (k + 1) _
        (fun p hp => by rw [hlen]; exact Nat.le_succ_of_le (h p (by simp [hp])))]
      rw [hlen]; simp; omega

lemma insertLoop_fst_sublist (used_pools : List String) (pick : Nat → Nat) :
    ∀ (ps : List Nat) (k : Nat) (res : List Char),
      res.Sublist (insertLoop used_pools pick ps k res).1
  | [], k, res => List.Sublist.refl res
  | pos :: rest, k, res => by
      rw [insertLoop]
      exact (sublist_insertIdx _ pos res).trans
        (insertLoop_fst_sublist used_pools pick rest (k + 1) _)

lemma insertLoop_fst_filter (used_pools : List String) (pick : Nat → Nat)
    (p : Char → Bool) (hp : ∀ v, p (get_random_invisible_char used_pools v) = false) :
    ∀ (ps : List Nat) (k : Nat) (res : List Char),
      (insertLoop used_pools pick ps k res).1.filter p = res.filter p
  | [], k, res => rfl
  | pos :: rest, k, res => by
      rw [insertLoop, insertLoop_fst_filter used_pools pick p hp rest (k + 1) _,
        filter_insertIdx p _ (hp (pick k)) pos res]

lemma insertLoop_fst_head (used_pools : List String) (pick : Nat → Nat) :
    ∀ (ps : List Nat) (k : Nat) (res : List Char), (∀ p ∈ ps, 1 ≤ p) →
      (insertLoop used_pools pick ps k res).1.head? = res.head?
  | [], k, res, _ => rfl
  | pos :: rest, k, res, h => by
      rw [insertLoop, insertLoop_fst_head used_pools pick rest (k + 1) _
        (fun p hp => h p (by simp [hp]))]
      exact head?_insertIdx _ pos res (h pos (by simp))

lemma scanLoop_snd_eq_drawLoop (text : List Char) (interval : Nat) (prob : ℚ)
    (gate : Nat → ℚ) :
    ∀ (l : List Nat) (c g : Nat),
      (scanLoop text interval prob gate l c g).2 = drawLoop text interval l c
  | [], _, _ => rfl
  | i :: rest, c, g => by
      rw [scanLoop, drawLoop]
      by_cases hv : validBoundary text i
      · simp only [hv, if_true]
        by_cases hm : (c + 1) % interval == 0
        · simp only [hm, if_true]
          rw [scanLoop_snd_eq_drawLoop text interval prob gate rest (c + 1) (g + 1)]
        · simp only [hm, if_false]
          exact scanLoop_snd_eq_drawLoop text interval prob gate rest (c + 1) g
      · simp only [hv, if_false]
        exact scanLoop_snd_eq_drawLoop text interval prob gate rest c g

lemma scanLoop_fst_subset (text : List Char) (interval : Nat) (prob : ℚ)
    (gate : Nat → ℚ) :
    ∀ (l : List Nat) (c g : Nat) (i : Nat),
      i ∈ (scanLoop text interval prob gate l c g).1 → i ∈ l
  | [], _, _, i => by simp [scanLoop]
  | j :: rest, c, g, i => by
      rw [scanLoop]
      by_cases hv : validBoundary text j
      · simp only [hv, if_true]
        by_cases hm : (c + 1) % interval == 0
        · simp only [hm, if_true]
          by_cases hg : gate g < prob
          · simp only [hg, if_true]
            intro h
            rcases List.mem_cons.mp h with rfl | h
            · exact List.mem_cons_self i rest
            · exact List.mem_cons_of_mem j
                (scanLoop_fst_subset text interval prob gate rest (c + 1) (g + 1) i h)
          · simp only [hg, if_false]
            exact fun h => List.mem_cons_of_mem j
              (scanLoop_fst_subset text interval prob gate rest (c + 1) (g + 1) i h)
        · simp only [hm, if_false]
          exact fun h => List.mem_cons_of_mem j
            (scanLoop_fst_subset text interval prob gate rest (c + 1) g i h)
      · simp only [hv, if_false]
        exact fun h => List.mem_cons_of_mem j
          (scanLoop_fst_subset text interval prob gate rest c g i h)

lemma scanLoop_fst_length_le (text : List Char) (interval : Nat) (prob : ℚ)
    (gate : Nat → ℚ) :
    ∀ (l : List Nat) (c g : Nat),
      (scanLoop text interval prob gate l c g).1.length ≤
        (l.filter (fun i => validBoundary text i)).length
  | [], _, _ => by simp [scanLoop]
  | j :: rest, c, g => by
      rw [scanLoop, List.filter_cons]
      by_cases hv : validBoundary text j
      · simp only [hv, if_true, List.length_cons]
        by_cases hm : (c + 1) % interval == 0
        · simp only [hm, if_true]
          by_cases hg : gate g < prob
          · simp only [hg, if_true, List.length_cons]
            exact Nat.succ_le_succ
              (scanLoop_fst_length_le text interval prob gate rest (c + 1) (g + 1))
          · simp only [hg, if_false]
            exact Nat.le_succ_of_le
              (scanLoop_fst_length_le text interval prob gate rest (c + 1) (g + 1))
        · simp only [hm, if_false]
          exact Nat.le_succ_of_le
            (scanLoop_fst_length_le text interval prob gate rest (c + 1) g)
      · simp only [hv, if_false]
        exact scanLoop_fst_length_le text interval prob gate rest c g

lemma eligUpto_zero (text : List Char) : eligUpto text 0 = 0 := rfl

lemma eligUpto_succ (text : List Char) (a : Nat) :
    eligUpto text (a + 1) =
      eligUpto text a + (if validBoundary text (a + 1) then 1 else 0) := by
  unfold eligUpto
  rw [show List.range' 1 (a + 1) = List.range' 1 a ++ [a + 1] by
    simpa [Nat.add_comm] using List.range'_1_concat 1 a]
  rw [List.filter_append, List.length_append]
  by_cases hv : validBoundary text (a + 1) <;> simp [hv]

lemma drawLoop_range_mem (text : List Char) (k : Nat) :
    ∀ (n a i : Nat),
      i ∈ drawLoop text k (List.range' (a + 1) n) (eligUpto text a) ↔
        (a + 1 ≤ i ∧ i < a + 1 + n ∧ validBoundary text i = true ∧
          eligUpto text i % k = 0)
  | 0, a, i => by simp [drawLoop]; omega
  | n + 1, a, i => by
      rw [show List.range' (a + 1) (n + 1) = (a + 1) :: List.range' (a + 2) n from
        List.range'_succ (a + 1) n 1]
      rw [drawLoop]
      by_cases hv : validBoundary text (a + 1)
      · simp only [hv, if_true]
        have hc : eligUpto text a + 1 = eligUpto text (a + 1) := by
          rw [eligUpto_succ text a, hv]; simp
        by_cases hm : eligUpto text (a + 1) % k = 0
        · rw [if_pos (by rw [hc]; exact beq_iff_eq.mpr hm), hc]
          rw [List.mem_cons, drawLoop_range_mem text k n (a + 1) i]
          constructor
          · rintro (rfl | ⟨h1, h2, h3, h4⟩)
            · exact ⟨Nat.le_refl _, by omega, hv, hm⟩
            · exact ⟨by omega, by omega, h3, h4⟩
          · rintro ⟨h1, h2, h3, h4⟩
            by_cases hi : i = a + 1
            · exact Or.inl hi
            · exact Or.inr ⟨by omega, by omega, h3, h4⟩
        · rw [if_neg (by rw [hc]; exact fun hb => hm (beq_iff_eq.mp hb)), hc]
          rw [drawLoop_range_mem text k n (a + 1) i]
          constructor
          · rintro ⟨h1, h2, h3, h4⟩
            exact ⟨by omega, by omega, h3, h4⟩
          · rintro ⟨h1, h2, h3, h4⟩
            by_cases hi : i = a + 1
            · exact absurd (hi ▸ h4) hm
            · exact ⟨by omega, by omega, h3, h4⟩
      · rw [if_neg hv]
        have hc : eligUpto text (a + 1) = eligUpto text a := by
          rw [eligUpto_succ text a, if_neg hv]; omega
        rw [← hc, drawLoop_range_mem text k n (a + 1) i]
        constructor
        · rintro ⟨h1, h2, h3, h4⟩
          exact ⟨by omega, by omega, h3, h4⟩
        · rintro ⟨h1, h2, h3, h4⟩
          by_cases hi : i = a + 1
          · rw [hi] at h3; exact absurd h3 (by simp [hv])
          · exact ⟨by omega, by omega, h3, h4⟩

lemma drawBoundaries_mem (text : List Char) (k : Nat) (i : Nat) :
    i ∈ drawBoundaries text k ↔
      (1 ≤ i ∧ i < text.length ∧ validBoundary text i = true ∧
        eligUpto text i % k = 0) := by
  unfold drawBoundaries boundaries
  rw [show (0 : Nat) = eligUpto text 0 from rfl,
    show (1 : Nat) = 0 + 1 from rfl,
    drawLoop_range_mem text k (text.length - 1) 0 i]
  constructor
  · rintro ⟨h1, h2, h3, h4⟩
    refine ⟨h1, by omega, h3, h4⟩
  · rintro ⟨h1, h2, h3, h4⟩
    refine ⟨h1, by omega, h3, h4⟩

lemma drawLoop_length (text : List Char) (k : Nat) (hk : 0 < k) :
    ∀ (l : List Nat) (c : Nat),
      (drawLoop text k l c).length + c / k =
        (c + (l.filter (fun i => validBoundary text i)).length) / k
  | [], c => by simp [drawLoop]
  | j :: rest, c => by
      rw [drawLoop, List.filter_cons]
      by_cases hv : validBoundary text j
      · rw [if_pos hv, if_pos hv]
        have ih := drawLoop_length text k hk rest (c + 1)
        have hsucc : (c + 1) / k = c / k + if k ∣ c + 1 then 1 else 0 :=
          Nat.succ_div c k
        have hgoal : c + ((rest.filter (fun i => validBoundary text i)).length + 1)
            = c + 1 + (rest.filter (fun i => validBoundary text i)).length := by omega
        by_cases hm : (c + 1) % k = 0
        · rw [if_pos (beq_iff_eq.mpr hm)]
          have hd : k ∣ c + 1 := Nat.dvd_iff_mod_eq_zero.mpr hm
          rw [if_pos hd] at hsucc
          rw [List.length_cons, List.length_cons, hgoal, ← ih, hsucc]
          ring
        · rw [if_neg (fun hb => hm (beq_iff_eq.mp hb))]
          have hd : ¬ k ∣ c + 1 := fun hdd => hm (Nat.dvd_iff_mod_eq_zero.mp hdd)
          rw [if_neg hd] at hsucc
          rw [List.length_cons, hgoal, ← ih, hsucc]
          ring
      · rw [if_neg hv, if_neg hv]
        exact drawLoop_length text k hk rest c

lemma drawBoundaries_length (text : List Char) (k : Nat) (hk : 0 < k) :
    (drawBoundaries text k).length = eligibleCount text / k := by
  have h := drawLoop_length text k hk (boundaries text) 0
  simpa [drawBoundaries, eligibleCount] using h

lemma level_lookup_cases (name : String) (cfg : InterferenceCfg)
    (h : level_lookup name = some cfg) :
    cfg = mildCfg ∨ cfg = moderateCfg ∨ cfg = severeCfg := by
  simp only [level_lookup, INTERFERENCE_LEVELS, List.lookup] at h
  split at h
  · exact Or.inl (Option.some.inj h).symm
  · split at h
    · exact Or.inr (Or.inl (Option.some.inj h).symm)
    · split at h
      · exact Or.inr (Or.inr (Option.some.inj h).symm)
      · exact absurd h (by simp)

lemma registered_pick_mem (used_pools : List String)
    (hne : all_chars used_pools ≠ [])
    (hsub : ∀ c ∈ all_chars used_pools, registeredPoolChars.contains c = true) :
    ∀ v, registeredPoolChars.contains (get_random_invisible_char used_pools v) = true :=
  fun v => hsub _ (getD_mod_mem _ hne v _)

lemma pick_mem_all_chars (used_pools : List String)
    (hne : all_chars used_pools ≠ []) (v : Nat) :
    get_random_invisible_char used_pools v ∈ all_chars used_pools :=
  getD_mod_mem _ hne v _

lemma mild_all_chars_ne : all_chars mildCfg.pools ≠ [] := by decide

lemma moderate_all_chars_ne : all_chars moderateCfg.pools ≠ [] := by decide

lemma severe_all_chars_ne : all_chars severeCfg.pools ≠ [] := by decide

lemma registered_all_chars_ne (cfg : InterferenceCfg)
    (h : cfg = mildCfg ∨ cfg = moderateCfg ∨ cfg = severeCfg) :
    all_chars cfg.pools ≠ [] := by
  rcases h with rfl | rfl | rfl
  · exact mild_all_chars_ne
  · exact moderate_all_chars_ne
  · exact severe_all_chars_ne

lemma registered_all_chars_sub (cfg : InterferenceCfg)
    (h : cfg = mildCfg ∨ cfg = moderateCfg ∨ cfg = severeCfg) :
    ∀ c ∈ all_chars cfg.pools, registeredPoolChars.contains c = true := by
  rcases h with rfl | rfl | rfl <;> decide

lemma positions_bounds (text : List Char) (k : Nat) (p : ℚ) (gate : Nat → ℚ) :
    ∀ i ∈ (scanLoop text k p gate (boundaries text) 0 0).1,
      1 ≤ i ∧ i ≤ text.length := by
  intro i hi
  have hmem := scanLoop_fst_subset text k p gate (boundaries text) 0 0 i hi
  have hrange := List.mem_range'_1.mp (by simpa [boundaries] using hmem)
  omega

lemma run_blank (text : List Char) (cfg : InterferenceCfg) (gate : Nat → ℚ)
    (pick : Nat → Nat) (h : (pyStrip text).isEmpty = true) :
    insert_adaptive_invisible_traps text cfg gate pick = [] := by
  unfold insert_adaptive_invisible_traps
  rw [if_pos h]

lemma run_shape (text : List Char) (cfg : InterferenceCfg) (gate : Nat → ℚ)
    (pick : Nat → Nat) (h : (pyStrip text).isEmpty = false) :
    ∃ (body : List Char) (n1 n2 : Nat),
      insert_adaptive_invisible_traps text cfg gate pick =
        body ++ [Char.ofNat 32, get_random_invisible_char cfg.pools n1,
                 get_random_invisible_char cfg.pools n2] ∧
      text.Sublist body ∧
      body.head? = text.head? ∧
      body.length = text.length +
        (scanLoop text cfg.interval cfg.prob gate (boundaries text) 0 0).1.length ∧
      (∀ q : Char → Bool, (∀ v, q (get_random_invisible_char cfg.pools v) = false) →
        body.filter q = text.filter q) := by
  unfold insert_adaptive_invisible_traps
  rw [if_neg (by simp [h])]
  refine ⟨_, _, _, rfl, ?_, ?_, ?_, ?_⟩
  · exact insertLoop_fst_sublist cfg.pools pick _ 0 text
  · refine insertLoop_fst_head cfg.pools pick _ 0 text ?_
    intro p hp
    exact (positions_bounds text cfg.interval cfg.prob gate p
      (List.mem_reverse.mp hp)).1
  · rw [insertLoop_fst_length cfg.pools pick _ 0 text ?_, List.length_reverse]
    intro p hp
    exact (positions_bounds text cfg.interval cfg.prob gate p
      (List.mem_reverse.mp hp)).2
  · intro q hq
    exact insertLoop_fst_filter cfg.pools pick q hq _ 0 text

lemma nonblank_ne_nil (text : List Char) (h : (pyStrip text).isEmpty = false) :
    text ≠ [] := by
  intro he
  subst he
  simp [pyStrip] at h

/-! ### Claim theorems -/

/-- C2 (code bug): the spec says `INVALID_POS_CHARS` holds ASCII punctuation,
whitespace (space, tab, newline, carriage return) and the CJK space, so that
two letters always form a valid insertion position and a whitespace
neighbour always makes it invalid.  The source wrote the charset as an
`r`-prefixed raw string, so `\t`, `\n`, `\r` stayed as backslash-letter
pairs: the LETTERS `t`, `n`, `r` (and the backslash) are treated as invalid
neighbours, while real tab, newline and carriage-return characters are
accepted.  This theorem evaluates the embedded code at the failing inputs:
letter pairs wrongly rejected, whitespace pairs wrongly accepted. -/
theorem invalid_pos_raw_string_bug :
    is_valid_insert_pos (Char.ofNat 116) (Char.ofNat 97) = false ∧
    is_valid_insert_pos (Char.ofNat 110) (Char.ofNat 97) = false ∧
    is_valid_insert_pos (Char.ofNat 114) (Char.ofNat 97) = false ∧
    is_valid_insert_pos (Char.ofNat 97) (Char.ofNat 9) = true ∧
    is_valid_insert_pos (Char.ofNat 97) (Char.ofNat 10) = true ∧
    is_valid_insert_pos (Char.ofNat 97) (Char.ofNat 13) = true ∧
    Char.ofNat 116 ∈ INVALID_POS_CHARS ∧ Char.ofNat 92 ∈ INVALID_POS_CHARS ∧
    Char.ofNat 9 ∉ INVALID_POS_CHARS ∧ Char.ofNat 10 ∉ INVALID_POS_CHARS ∧
    Char.ofNat 13 ∉ INVALID_POS_CHARS := by
  decide

/-- C6: a `random.random()` draw is consumed at a boundary exactly when the
boundary is valid and the eligible-boundary counter (which is incremented
first, so it counts the current boundary) is divisible by the interval; the
set of draw-consuming boundaries computed by the scan equals
`drawBoundaries`, a function of the text and the interval alone, so it is
identical in any two runs regardless of the `gate` outcomes. -/
theorem draw_gating_deterministic (text : List Char) (interval : Nat)
    (prob : ℚ) (gate : Nat → ℚ) :
    (scanLoop text interval prob gate (boundaries text) 0 0).2 =
      drawBoundaries text interval ∧
    ∀ i, i ∈ drawBoundaries text interval ↔
      (1 ≤ i ∧ i < text.length ∧ validBoundary text i = true ∧
        eligUpto text i % interval = 0) := by
  constructor
  · rw [scanLoop_snd_eq_drawLoop]
    rfl
  · exact fun i => drawBoundaries_mem text interval i

/-- C4: for every registered level, a blank-after-trimming input yields the
empty output (no trailing marker), and every non-blank input yields an
output ending in one space followed by two characters of the level's pool
union — so the blank case is the only one without the trailing marker. -/
theorem blank_input_special_case (name : String) (cfg : InterferenceCfg)
    (hreg : level_lookup name = some cfg) (text : List Char) (gate : Nat → ℚ)
    (pick : Nat → Nat) :
    ((pyStrip text).isEmpty = true →
      insert_adaptive_invisible_traps text cfg gate pick = []) ∧
    ((pyStrip text).isEmpty = false → ∃ body c1 c2,
      c1 ∈ all_chars cfg.pools ∧ c2 ∈ all_chars cfg.pools ∧
      insert_adaptive_invisible_traps text cfg gate pick =
        body ++ [Char.ofNat 32, c1, c2]) := by
  constructor
  · exact run_blank text cfg gate pick
  · intro h
    obtain ⟨body, n1, n2, heq, -, -, -, -⟩ := run_shape text cfg gate pick h
    have hne := registered_all_chars_ne cfg (level_lookup_cases name cfg hreg)
    exact ⟨body, _, _, pick_mem_all_chars _ hne n1,
      pick_mem_all_chars _ hne n2, heq⟩

/-- Witness for C4 at a concrete instance: the whitespace-only input
consisting of three spaces maps to the empty string under the registered
level `Moderate Interference`. -/
theorem blank_input_special_case_witness :
    level_lookup "Moderate Interference" = some moderateCfg ∧
    (pyStrip [Char.ofNat 32, Char.ofNat 32, Char.ofNat 32]).isEmpty = true ∧
    insert_adaptive_invisible_traps [Char.ofNat 32, Char.ofNat 32, Char.ofNat 32]
      moderateCfg (fun _ => 0) (fun _ => 0) = [] :=
  ⟨rfl, by decide,
    (blank_input_special_case "Moderate Interference" moderateCfg rfl
      [Char.ofNat 32, Char.ofNat 32, Char.ofNat 32] (fun _ => 0) (fun _ => 0)).1
      (by decide)⟩

/-- C5: for non-blank input, the output length is at most
input length + eligible boundaries + 3 and at least input length + 3, for
every configuration and every sequence of random outcomes. -/
theorem length_growth_bound (text : List Char) (cfg : InterferenceCfg)
    (gate : Nat → ℚ) (pick : Nat → Nat)
    (h : (pyStrip text).isEmpty = false) :
    (insert_adaptive_invisible_traps text cfg gate pick).length ≤
      text.length + eligibleCount text + 3 ∧
    text.length + 3 ≤ (insert_adaptive_invisible_traps text cfg gate pick).length := by
  obtain ⟨body, n1, n2, heq, -, -, hlen, -⟩ := run_shape text cfg gate pick h
  have hle := scanLoop_fst_length_le text cfg.interval cfg.prob gate
    (boundaries text) 0 0
  have helig : ((boundaries text).filter (fun i => validBoundary text i)).length
      = eligibleCount text := rfl
  rw [heq, List.length_append]
  have h3 : ([Char.ofNat 32, get_random_invisible_char cfg.pools n1,
      get_random_invisible_char cfg.pools n2]).length = 3 := rfl
  rw [h3]
  omega

/-- Witness for C5 at a concrete instance: input of the two letters `H`,
`i` under `Mild Interference`. -/
theorem length_growth_bound_witness :
    (pyStrip [Char.ofNat 72, Char.ofNat 105]).isEmpty = false ∧
    ((insert_adaptive_invisible_traps [Char.ofNat 72, Char.ofNat 105] mildCfg
        (fun _ => 0) (fun _ => 0)).length ≤
      ([Char.ofNat 72, Char.ofNat 105] : List Char).length +
        eligibleCount [Char.ofNat 72, Char.ofNat 105] + 3 ∧
    ([Char.ofNat 72, Char.ofNat 105] : List Char).length + 3 ≤
      (insert_adaptive_invisible_traps [Char.ofNat 72, Char.ofNat 105] mildCfg
        (fun _ => 0) (fun _ => 0)).length) :=
  ⟨by decide, length_growth_bound [Char.ofNat 72, Char.ofNat 105] mildCfg
    (fun _ => 0) (fun _ => 0) (by decide)⟩

/-- C7: for the input `a,b` under `Mild Interference`, both internal
boundaries are invalid (the comma is in `INVALID_POS_CHARS`), there are no
eligible boundaries and no draw-consuming boundaries, and for every sequence
of random outcomes the output is exactly `a,b` followed by one space and two
pool characters — length 6. -/
theorem scenario_comma_no_insertion (gate : Nat → ℚ) (pick : Nat → Nat) :
    validBoundary [Char.ofNat 97, Char.ofNat 44, Char.ofNat 98] 1 = false ∧
    validBoundary [Char.ofNat 97, Char.ofNat 44, Char.ofNat 98] 2 = false ∧
    eligibleCount [Char.ofNat 97, Char.ofNat 44, Char.ofNat 98] = 0 ∧
    drawBoundaries [Char.ofNat 97, Char.ofNat 44, Char.ofNat 98] mildCfg.interval = [] ∧
    (∃ c1 c2, c1 ∈ all_chars mildCfg.pools ∧ c2 ∈ all_chars mildCfg.pools ∧
      insert_adaptive_invisible_traps [Char.ofNat 97, Char.ofNat 44, Char.ofNat 98]
        mildCfg gate pick =
        [Char.ofNat 97, Char.ofNat 44, Char.ofNat 98, Char.ofNat 32, c1, c2]) ∧
    (insert_adaptive_invisible_traps [Char.ofNat 97, Char.ofNat 44, Char.ofNat 98]
      mildCfg gate pick).length = 6 := by
  refine ⟨by decide, by decide, by decide, by decide, ?_, rfl⟩
  exact ⟨_, _, pick_mem_all_chars _ mild_all_chars_ne (pick 0),
    pick_mem_all_chars _ mild_all_chars_ne (pick 1), rfl⟩

/-- C8: resolving a level name in the registry succeeds exactly for the
three registered names; every other name takes the error branch (`none`,
the `KeyError` of the Python lookup) and never yields a default
configuration. -/
theorem unknown_level_fails_fast (name : String) :
    (level_lookup name).isSome = true ↔
      (name = "Mild Interference" ∨ name = "Moderate Interference" ∨
        name = "Severe interference") := by
  by_cases h1 : name = "Mild Interference"
  · subst h1; simp [level_lookup, INTERFERENCE_LEVELS, List.lookup]
  · by_cases h2 : name = "Moderate Interference"
    · subst h2; simp [level_lookup, INTERFERENCE_LEVELS, List.lookup]
    · by_cases h3 : name = "Severe interference"
      · subst h3; simp [level_lookup, INTERFERENCE_LEVELS, List.lookup]
      · simp [level_lookup, INTERFERENCE_LEVELS, List.lookup,
          beq_eq_false_iff_ne.mpr h1, beq_eq_false_iff_ne.mpr h2,
          beq_eq_false_iff_ne.mpr h3, h1, h2, h3]

/-- C9: the three registered levels are strictly ordered — smaller interval,
larger probability and a pool-name superset as the intensity grows — and for
every fixed input the exactly-computed expected number of in-body insertions
(draw-eligible boundary count times implantation probability) is monotone:
Mild ≤ Moderate ≤ Severe. -/
theorem monotonic_interference_ordering :
    severeCfg.interval < moderateCfg.interval ∧
    moderateCfg.interval < mildCfg.interval ∧
    mildCfg.prob < moderateCfg.prob ∧ moderateCfg.prob < severeCfg.prob ∧
    mildCfg.pools ⊆ moderateCfg.pools ∧ moderateCfg.pools ⊆ severeCfg.pools ∧
    ∀ text : List Char,
      expectedInsertions text mildCfg ≤ expectedInsertions text moderateCfg ∧
      expectedInsertions text moderateCfg ≤ expectedInsertions text severeCfg := by
  refine ⟨by norm_num [severeCfg, moderateCfg], by norm_num [moderateCfg, mildCfg],
    by norm_num [mildCfg, moderateCfg], by norm_num [moderateCfg, severeCfg],
    ?_, ?_, ?_⟩
  · intro a ha
    simp only [mildCfg, List.mem_cons, List.not_mem_nil, or_false] at ha
    simp [moderateCfg, ha]
  · intro a ha
    simp only [moderateCfg, List.mem_cons, List.not_mem_nil, or_false] at ha
    rcases ha with rfl | rfl
    · simp [severeCfg]
    · simp [severeCfg]
  · intro text
    have e5 : (drawBoundaries text 5).length = eligibleCount text / 5 :=
      drawBoundaries_length text 5 (by norm_num)
    have e3 : (drawBoundaries text 3).length = eligibleCount text / 3 :=
      drawBoundaries_length text 3 (by norm_num)
    have e2 : (drawBoundaries text 2).length = eligibleCount text / 2 :=
      drawBoundaries_length text 2 (by norm_num)
    have h53 : eligibleCount text / 5 ≤ eligibleCount text / 3 :=
      Nat.div_le_div_left (by norm_num) (by norm_num)
    have h32 : eligibleCount text / 3 ≤ eligibleCount text / 2 :=
      Nat.div_le_div_left (by norm_num) (by norm_num)
    constructor
    · unfold expectedInsertions
      rw [show mildCfg.interval = 5 from rfl, show moderateCfg.interval = 3 from rfl,
        e5, e3, show mildCfg.prob = 1/5 from rfl, show moderateCfg.prob = 1/2 from rfl]
      have hc : ((eligibleCount text / 5 : Nat) : ℚ) ≤ ((eligibleCount text / 3 : Nat) : ℚ) :=
        Nat.cast_le.mpr h53
      have hb : (0 : ℚ) ≤ ((eligibleCount text / 3 : Nat) : ℚ) := Nat.cast_nonneg _
      linarith
    · unfold expectedInsertions
      rw [show moderateCfg.interval = 3 from rfl, show severeCfg.interval = 2 from rfl,
        e3, e2, show moderateCfg.prob = 1/2 from rfl, show severeCfg.prob = 4/5 from rfl]
      have hc : ((eligibleCount text / 3 : Nat) : ℚ) ≤ ((eligibleCount text / 2 : Nat) : ℚ) :=
        Nat.cast_le.mpr h32
      have hb : (0 : ℚ) ≤ ((eligibleCount text / 2 : Nat) : ℚ) := Nat.cast_nonneg _
      linarith

/-- C10: for non-blank input, under every configuration and every sequence
of random outcomes, the input occurs as an order-preserving subsequence of
the output, and the output begins with the input's first code point. -/
theorem input_subsequence_of_output (text : List Char) (cfg : InterferenceCfg)
    (gate : Nat → ℚ) (pick : Nat → Nat)
    (h : (pyStrip text).isEmpty = false) :
    text.Sublist (insert_adaptive_invisible_traps text cfg gate pick) ∧
    (insert_adaptive_invisible_traps text cfg gate pick).head? = text.head? := by
  obtain ⟨body, n1, n2, heq, hsub, hhead, hlen, -⟩ := run_shape text cfg gate pick h
  have hbody : body ≠ [] := by
    have hne := nonblank_ne_nil text h
    intro hb
    subst hb
    exact hne (List.sublist_nil.mp hsub)
  constructor
  · rw [heq]
    exact hsub.trans (List.sublist_append_left body _)
  · rw [heq, List.head?_append_of_ne_nil _ hbody]
    exact hhead

/-- Witness for C10 at a concrete instance: the two-letter input under
`Severe interference` with constant outcome streams. -/
theorem input_subsequence_of_output_witness :
    (pyStrip [Char.ofNat 72, Char.ofNat 105]).isEmpty = false ∧
    (([Char.ofNat 72, Char.ofNat 105] : List Char).Sublist
      (insert_adaptive_invisible_traps [Char.ofNat 72, Char.ofNat 105] severeCfg
        (fun _ => 0) (fun _ => 0)) ∧
    (insert_adaptive_invisible_traps [Char.ofNat 72, Char.ofNat 105] severeCfg
      (fun _ => 0) (fun _ => 0)).head? =
      ([Char.ofNat 72, Char.ofNat 105] : List Char).head?) :=
  ⟨by decide, input_subsequence_of_output [Char.ofNat 72, Char.ofNat 105] severeCfg
    (fun _ => 0) (fun _ => 0) (by decide)⟩

/-- C1 counterexample: content preservation does NOT hold for every input
text.  First input: `a` U+200B `b` (non-blank) — the pre-existing U+200B of
the input occurs in a registered pool, so the cleanup removes it together
with the inserted characters and recovery fails.  Second input: three spaces
(blank) — the output is empty, so no cleanup can recover the input. -/
theorem content_preservation_counterexample :
    removeEndMark (stripInvisible (insert_adaptive_invisible_traps
        [Char.ofNat 97, Char.ofNat 0x200B, Char.ofNat 98] mildCfg
        (fun _ => 1) (fun _ => 0))) ≠
      [Char.ofNat 97, Char.ofNat 0x200B, Char.ofNat 98] ∧
    removeEndMark (stripInvisible (insert_adaptive_invisible_traps
        [Char.ofNat 32, Char.ofNat 32, Char.ofNat 32] mildCfg
        (fun _ => 1) (fun _ => 0))) ≠
      [Char.ofNat 32, Char.ofNat 32, Char.ofNat 32] := by
  decide

/-- C1 (amended): for every registered level, every sequence of random
outcomes, and every input that is non-blank after trimming and contains no
character of any registered pool, removing from the output every character
that occurs in any registered pool (which also deletes the two trailing
pool characters) and then the remaining trailing space of the marker yields
exactly the original input. -/
theorem content_preservation_pool_free (text : List Char)
    (cfg : InterferenceCfg) (name : String)
    (hreg : level_lookup name = some cfg)
    (h : (pyStrip text).isEmpty = false)
    (hfree : ∀ c ∈ text, registeredPoolChars.contains c = false)
    (gate : Nat → ℚ) (pick : Nat → Nat) :
    removeEndMark (stripInvisible
      (insert_adaptive_invisible_traps text cfg gate pick)) = text := by
  obtain ⟨body, n1, n2, heq, -, -, -, hfilter⟩ := run_shape text cfg gate pick h
  have hcase := level_lookup_cases name cfg hreg
  have hpool : ∀ v,
      registeredPoolChars.contains (get_random_invisible_char cfg.pools v) = true :=
    registered_pick_mem cfg.pools (registered_all_chars_ne cfg hcase)
      (registered_all_chars_sub cfg hcase)
  have hpick : ∀ v, (fun c => !(registeredPoolChars.contains c))
      (get_random_invisible_char cfg.pools v) = false := fun v => by
    simp only [hpool v, Bool.not_true]
  rw [heq]
  unfold stripInvisible
  rw [List.filter_append, hfilter _ hpick]
  have htext : text.filter (fun c => !(registeredPoolChars.contains c)) = text :=
    List.filter_eq_self.mpr (fun c hc => by
      simp only [hfree c hc, Bool.not_false])
  have hsuffix : ([Char.ofNat 32, get_random_invisible_char cfg.pools n1,
      get_random_invisible_char cfg.pools n2]).filter
        (fun c => !(registeredPoolChars.contains c)) = [Char.ofNat 32] := by
    rw [List.filter_cons_of_pos (by decide),
      List.filter_cons_of_neg (by simp only [hpool n1, Bool.not_true]; exact Bool.false_ne_true),
      List.filter_cons_of_neg (by simp only [hpool n2, Bool.not_true]; exact Bool.false_ne_true),
      List.filter_nil]
  rw [htext, hsuffix]
  unfold removeEndMark
  exact List.dropLast_concat

/-- Witness for the amended C1 at a concrete instance: the pool-free
two-letter input under `Mild Interference`. -/
theorem content_preservation_pool_free_witness :
    level_lookup "Mild Interference" = some mildCfg ∧
    (pyStrip [Char.ofNat 72, Char.ofNat 105]).isEmpty = false ∧
    (∀ c ∈ ([Char.ofNat 72, Char.ofNat 105] : List Char),
      registeredPoolChars.contains c = false) ∧
    removeEndMark (stripInvisible (insert_adaptive_invisible_traps
      [Char.ofNat 72, Char.ofNat 105] mildCfg (fun _ => 0) (fun _ => 0))) =
      [Char.ofNat 72, Char.ofNat 105] :=
  ⟨rfl, by decide, by decide,
    content_preservation_pool_free [Char.ofNat 72, Char.ofNat 105] mildCfg
      "Mild Interference" rfl (by decide) (by decide) (fun _ => 0) (fun _ => 0)⟩

/-- C3 counterexample: for the input `Hi` no random outcome ever produces an
in-body insertion.  The counter is incremented BEFORE the modulus test, so
at the single (valid) boundary it equals 1, and `1 mod interval ≠ 0` for
every registered interval (5, 3, 2): no draw is consumed at all and the
output always has length 5, never 6. -/
theorem scenario_hi_counterexample :
    (¬ ∃ (gate : Nat → ℚ) (pick : Nat → Nat),
      (insert_adaptive_invisible_traps [Char.ofNat 72, Char.ofNat 105]
        mildCfg gate pick).length = 6) ∧
    drawBoundaries [Char.ofNat 72, Char.ofNat 105] mildCfg.interval = [] ∧
    drawBoundaries [Char.ofNat 72, Char.ofNat 105] moderateCfg.interval = [] ∧
    drawBoundaries [Char.ofNat 72, Char.ofNat 105] severeCfg.interval = [] := by
  refine ⟨?_, by decide, by decide, by decide⟩
  rintro ⟨gate, pick, hlen⟩
  have h5 : (insert_adaptive_invisible_traps [Char.ofNat 72, Char.ofNat 105]
      mildCfg gate pick).length = 5 := rfl
  omega

/-- C3 (amended): for the input `Hi` under every registered level, exactly
one internal boundary is scanned and it is valid, but the eligible-boundary
counter is incremented before the modulus check, so it equals 1 at that
boundary; `1 mod interval ≠ 0` for all registered intervals, no draw occurs,
no character is inserted in the body, and for every sequence of random
outcomes the output is `H`, `i`, one space and two pool characters — exactly
length 5. -/
theorem scenario_hi_amended (name : String) (cfg : InterferenceCfg)
    (hreg : level_lookup name = some cfg) (gate : Nat → ℚ) (pick : Nat → Nat) :
    boundaries [Char.ofNat 72, Char.ofNat 105] = [1] ∧
    validBoundary [Char.ofNat 72, Char.ofNat 105] 1 = true ∧
    eligUpto [Char.ofNat 72, Char.ofNat 105] 1 = 1 ∧
    1 % cfg.interval ≠ 0 ∧
    drawBoundaries [Char.ofNat 72, Char.ofNat 105] cfg.interval = [] ∧
    (insert_adaptive_invisible_traps [Char.ofNat 72, Char.ofNat 105]
      cfg gate pick).length = 5 ∧
    ∃ c1 c2, c1 ∈ all_chars cfg.pools ∧ c2 ∈ all_chars cfg.pools ∧
      insert_adaptive_invisible_traps [Char.ofNat 72, Char.ofNat 105]
        cfg gate pick = [Char.ofNat 72, Char.ofNat 105, Char.ofNat 32, c1, c2] := by
  have hcase := level_lookup_cases name cfg hreg
  have hne := registered_all_chars_ne cfg hcase
  rcases hcase with rfl | rfl | rfl
  · exact ⟨by decide, by decide, by decide, by decide, by decide, rfl,
      _, _, pick_mem_all_chars _ hne (pick 0), pick_mem_all_chars _ hne (pick 1), rfl⟩
  · exact ⟨by decide, by decide, by decide, by decide, by decide, rfl,
      _, _, pick_mem_all_chars _ hne (pick 0), pick_mem_all_chars _ hne (pick 1), rfl⟩
  · exact ⟨by decide, by decide, by decide, by decide, by decide, rfl,
      _, _, pick_mem_all_chars _ hne (pick 0), pick_mem_all_chars _ hne (pick 1), rfl⟩

/-- Witness for the amended C3 at a concrete instance: `Hi` under
`Severe interference` with constant outcome streams has output length 5. -/
theorem scenario_hi_amended_witness :
    level_lookup "Severe interference" = some severeCfg ∧
    (insert_adaptive_invisible_traps [Char.ofNat 72, Char.ofNat 105]
      severeCfg (fun _ => 0) (fun _ => 0)).length = 5 :=
  ⟨rfl, (scenario_hi_amended "Severe interference" severeCfg rfl
    (fun _ => 0) (fun _ => 0)).2.2.2.2.2.1⟩

end Antibody
